import Mathlib

/-!
# Verification of the open-notebook RAG core

Shallow embedding of the core of the repository (`src/core/document.rs`,
`src/core/rag.rs`, `src/core/vector_store.rs`, `src/search/pdf.rs`,
`src/core/rag.rs::search_and_ingest_arxiv`) together with proofs about the
chunker, the RAG engine construction, the query filter, ingestion and the
identity of index points.

Modelling conventions:
* Rust `usize` arithmetic on offsets is `Nat` (all quantities involved stay
  far below `2^64`, and the source only adds and subtracts saturatingly).
* Rust `char` is Lean `Char`; a Rust `String`'s char sequence is `List Char`.
  `str::rfind` returns a **byte** offset; we model byte offsets with
  `Char.utf8Size`, exactly as Rust counts them.
* A Rust slice expression `chars[a..b]` panics when `b > chars.len()`;
  fallible evaluation is modelled with `Option`, `none` meaning a panic.
* `f32` similarity scores flow through the engine without any arithmetic —
  they are only compared with `>=` — so scores are modelled as `Rat`,
  which has the same order behaviour on the (non-NaN) values involved.
* `Uuid::now_v7()` and `Utc::now()` are fresh-supply effects; they are
  modelled by explicitly threading a generator `Gen` holding the next id
  and the current time.
-/

namespace OpenNotebook

/-! ## Chunker (`src/core/document.rs::chunk_text`) -/

/-- The sentence-terminal predicate from `chunk.rfind(|c| c == '.' || c == '!' || c == '?')`. -/
def isSentenceTerminal (c : Char) : Bool :=
  c = '.' || c = '!' || c = '?'

/-- Auxiliary scan for `rfindTerminalByte`: walks the list left to right,
`off` is the byte offset of the head, `acc` the byte offset of the last
terminal seen so far. -/
def rfindTerminalByteAux : List Char → Nat → Option Nat → Option Nat
  | [], _, acc => acc
  | c :: cs, off, acc =>
      rfindTerminalByteAux cs (off + c.utf8Size)
        (if isSentenceTerminal c then some off else acc)

/-- Rust `String::rfind` with the sentence-terminal predicate: the **byte**
offset of the last sentence-terminal character, as in the Rust source. -/
def rfindTerminalByte (l : List Char) : Option Nat :=
  rfindTerminalByteAux l 0 none

/-- The window `chars[start..e]` of the char vector (`chunk` in the source). -/
def windowChunk (chars : List Char) (start e : Nat) : List Char :=
  (chars.drop start).take (e - start)

/-- The sentence-boundary adjustment of one window, from the body of the
`while` loop of `chunk_text` (`document.rs` lines 124–138):
if the window's right edge is interior, find the last sentence terminal in
the window (by **byte** offset `pos`), set `adjusted_end = start + pos + 1`
and re-slice `chars[start..adjusted_end]`.  The re-slice panics (`none`)
when `adjusted_end` exceeds the char count, which Rust's `rfind` byte
offsets make possible on multi-byte text. -/
def adjustChunk (chars : List Char) (start e : Nat) : Option (List Char) :=
  let chunk := windowChunk chars start e
  if e < chars.length then
    match rfindTerminalByte chunk with
    | some pos =>
        let adjusted_end := start + pos + 1
        if start < adjusted_end then
          if adjusted_end ≤ chars.length then
            some (windowChunk chars start adjusted_end)
          else
            none
        else
          some chunk
    | none => some chunk
  else
    some chunk

/-- The chunking step `max(1, chunk_size - overlap)` (Rust
`chunk_size.saturating_sub(overlap).max(1)`). -/
def chunkStep (chunk_size overlap : Nat) : Nat :=
  (chunk_size - overlap).max 1

/-- The `while start < total` loop of `chunk_text`, with explicit fuel.
Each call consumes one unit of fuel; since `start` grows by
`chunkStep ≥ 1` per iteration, any fuel exceeding `chars.length - start`
is sufficient and the fuel value never affects the result
(`chunkLoop_fuel_irrelevant`). -/
def chunkLoop (chars : List Char) (chunk_size overlap : Nat) :
    Nat → Nat → Option (List (List Char × Nat × Nat))
  | _, 0 => none
  | start, fuel + 1 =>
    if start < chars.length then
      let e := min (start + chunk_size) chars.length
      match adjustChunk chars start e with
      | none => none
      | some ac =>
        match chunkLoop chars chunk_size overlap (start + chunkStep chunk_size overlap) fuel with
        | none => none
        | some rest => some ((ac, start, start + ac.length) :: rest)
    else
      some []

/-- Rust `chunk_text(text, chunk_size, overlap)` from `document.rs`: returns
the list of `(content, start, end)` triples, `none` modelling a panic of the
Rust function. -/
def chunk_text (text : List Char) (chunk_size overlap : Nat) :
    Option (List (List Char × Nat × Nat)) :=
  if text.length = 0 then some []
  else chunkLoop text chunk_size overlap 0 (text.length + 1)

/-! ## Data model (`src/core/document.rs`) -/

/-- Explicit state for the two ambient effects of the source:
`Uuid::now_v7()` (the next fresh id) and `Utc::now()` (the current time). -/
structure Gen where
  nextId : Nat
  time : Nat
deriving Repr, DecidableEq

/-- One `Uuid::now_v7()` call: returns the id and the advanced supply. -/
def Gen.fresh (g : Gen) : Nat × Gen :=
  (g.nextId, { g with nextId := g.nextId + 1 })

/-- Source type for documents (`document.rs::SourceType`). -/
inductive SourceType where
  | Pdf
  | ArxivPaper
  | WebPage
  | QuestDb
  | ThetaData
  | Manual
deriving Repr, DecidableEq

/-- Metadata for a document (`document.rs::DocumentMetadata`); Rust
`DateTime<Utc>` is a `Nat` timestamp and the free-form `serde_json::Value`
is an optional string.  The field defaults model `Default::default()`. -/
structure DocumentMetadata where
  authors : List String := []
  tags : List String := []
  abstract_text : Option String := none
  doi : Option String := none
  arxiv_id : Option String := none
  publication_date : Option Nat := none
  page_count : Option Nat := none
  word_count : Option Nat := none
  extra : Option String := none
deriving Repr, DecidableEq

/-- A chunk of a document for embedding (`document.rs::DocumentChunk`). -/
structure DocumentChunk where
  id : Nat
  document_id : Nat
  content : List Char
  chunk_index : Nat
  start_char : Nat
  end_char : Nat
  embedding : Option (List Rat)
deriving Repr, DecidableEq

/-- A document in the knowledge base (`document.rs::Document`). -/
structure Document where
  id : Nat
  title : String
  content : List Char
  source_type : SourceType
  source_url : Option String
  metadata : DocumentMetadata
  chunks : List DocumentChunk
  created_at : Nat
  updated_at : Nat
deriving Repr, DecidableEq

/-- Rust `Document::new`: fresh id, empty chunk list, both timestamps set to
now. -/
def Document.new (title : String) (content : List Char) (source_type : SourceType)
    (g : Gen) : Document × Gen :=
  let (id, g') := g.fresh
  ({ id := id, title := title, content := content, source_type := source_type,
     source_url := none, metadata := {}, chunks := [],
     created_at := g.time, updated_at := g.time }, g')

/-- Rust `Document::with_source_url`. -/
def Document.with_source_url (d : Document) (url : String) : Document :=
  { d with source_url := some url }

/-- Rust `Document::with_metadata`. -/
def Document.with_metadata (d : Document) (m : DocumentMetadata) : Document :=
  { d with metadata := m }

/-- The `enumerate().map(...)` of `Document::chunk`: turns the raw
`(content, start, end)` triples into `DocumentChunk`s, drawing one fresh
`Uuid::now_v7()` per chunk, in order. -/
def assignChunkIds (docId : Nat) :
    List (List Char × Nat × Nat) → Nat → Gen → List DocumentChunk × Gen
  | [], _, g => ([], g)
  | (content, s, e) :: rest, idx, g =>
    let (cid, g1) := g.fresh
    let (cs, g2) := assignChunkIds docId rest (idx + 1) g1
    ({ id := cid, document_id := docId, content := content, chunk_index := idx,
       start_char := s, end_char := e, embedding := none } :: cs, g2)

/-- Rust `Document::chunk`: replaces the chunk list with the freshly
chunked content and bumps `updated_at`; `none` models a panic of
`chunk_text`. -/
def Document.chunk (doc : Document) (chunk_size overlap : Nat) (g : Gen) :
    Option (Document × Gen) :=
  match chunk_text doc.content chunk_size overlap with
  | none => none
  | some raw =>
    let (cs, g') := assignChunkIds doc.id raw 0 g
    some ({ doc with chunks := cs, updated_at := g'.time }, g')

/-! ## Vector store (`src/core/vector_store.rs`) -/

/-- The unit stored in the vector index: one point per chunk, as built by
`RagEngine::ingest_document` — `(chunk.id, chunk.document_id,
chunk.chunk_index, chunk.content, embedding)`. -/
structure Point where
  id : Nat
  document_id : Nat
  chunk_index : Nat
  content : List Char
  embedding : List Rat
deriving Repr, DecidableEq

/-- Modelled from the spec: the state mutation of
`VectorStore::upsert_batch` happens inside the Qdrant server, which is not
part of this repository; spec §4.3 defines it — writing a point whose id
already exists replaces it (idempotent upsert, never duplicates), and the
whole batch is one operation.  The index state is the list of live points. -/
def upsert_batch (points : List Point) (st : List Point) : List Point :=
  st.filter (fun p => points.all (fun q => q.id != p.id)) ++ points

/-- Search result from the vector store (`vector_store.rs::SearchResult`).
Scores are `f32` in the source; they are only ever compared, never
computed with, so `Rat` is an order-faithful model. -/
structure SearchResult where
  id : Nat
  score : Rat
  document_id : Nat
  chunk_index : Nat
  content : List Char
deriving Repr, DecidableEq

/-! ## RAG engine (`src/core/rag.rs`) -/

/-- Failure taxonomy of the engine's collaborators (the source uses
`anyhow::Error`; the spec names the classes). -/
inductive RagError where
  | modelError (msg : String)
  | indexError (msg : String)
  | configError (msg : String)
deriving Repr, DecidableEq

/-- RAG engine configuration (`rag.rs::RagConfig`). -/
structure RagConfig where
  chunk_size : Nat
  chunk_overlap : Nat
  search_limit : Nat
  similarity_threshold : Rat
deriving Repr, DecidableEq

/-- Rust `RagConfig::default()`. -/
def RagConfig.default : RagConfig :=
  { chunk_size := 512, chunk_overlap := 50, search_limit := 10,
    similarity_threshold := mkRat 7 10 }

/-- Handle to the embedding service (`embedding.rs::EmbeddingService`
constructor data; the lazily-loaded model itself is behind the
`EmbedOracle` collaborator). -/
structure EmbeddingService where
  model_name : String
  dimension : Nat
deriving Repr, DecidableEq

/-- Handle to the vector store (`vector_store.rs::VectorStore` constructor
data; the remote index state is threaded explicitly as `List Point`). -/
structure VectorStore where
  collection_name : String
  dimension : Nat
deriving Repr, DecidableEq

/-- Handle to the arXiv searcher (`search/arxiv.rs::ArxivSearcher`). -/
structure ArxivSearcher where
  max_results : Nat
deriving Repr, DecidableEq

/-- Rust `ArxivSearcher::new`. -/
def ArxivSearcher.new (max_results : Nat) : ArxivSearcher :=
  { max_results := max_results }

/-- Handle to the Google searcher (`search/google.rs::GoogleSearcher`). -/
structure GoogleSearcher where
  api_key : String
deriving Repr, DecidableEq

/-- Handle to the PDF processor (`search/pdf.rs::PdfProcessor`, no fields). -/
structure PdfProcessor where
deriving Repr, DecidableEq

/-- Rust `PdfProcessor::new`. -/
def PdfProcessor.new : PdfProcessor := {}

/-- Handle to the QuestDB client (`storage/questdb.rs`), only ever `None`
in the constructed engine. -/
structure QuestDbClient where
deriving Repr, DecidableEq

/-- Main RAG engine (`rag.rs::RagEngine`). -/
structure RagEngine where
  embedding_service : EmbeddingService
  vector_store : VectorStore
  config : RagConfig
  arxiv_searcher : Option ArxivSearcher
  google_searcher : Option GoogleSearcher
  pdf_processor : PdfProcessor
  questdb_client : Option QuestDbClient
deriving Repr, DecidableEq

/-- Rust `RagEngine::new` (`rag.rs` lines 70–84): wraps the fields in
`Ok` unconditionally — there is no validation of the config. -/
def RagEngine.new (embedding_service : EmbeddingService) (vector_store : VectorStore)
    (config : RagConfig) : Except RagError RagEngine :=
  .ok { embedding_service := embedding_service, vector_store := vector_store,
        config := config,
        arxiv_searcher := some (ArxivSearcher.new 50),
        google_searcher := none,
        pdf_processor := PdfProcessor.new,
        questdb_client := none }

/-- The effectful collaborators of the engine (spec §6): the lazily-loaded
embedding model behind `EmbeddingService::embed`/`embed_batch`. -/
structure EmbedOracle where
  embed : List Char → Except RagError (List Rat)
  embed_batch : List (List Char) → Except RagError (List (List Rat))

/-- The effectful search side of `VectorStore::search`: query vector and
limit to descending-score results. -/
abbrev SearchOracle := List Rat → Nat → Except RagError (List SearchResult)

/-- A chunk of context retrieved for RAG (`rag.rs::ContextChunk`). -/
structure ContextChunk where
  content : List Char
  score : Rat
  source_type : SourceType
  source_title : String
deriving Repr, DecidableEq

/-- Reference to a source document (`rag.rs::SourceReference`). -/
structure SourceReference where
  title : String
  url : Option String
  source_type : SourceType
deriving Repr, DecidableEq

/-- Query result from the RAG engine (`rag.rs::QueryResult`). -/
structure QueryResult where
  query : List Char
  context_chunks : List ContextChunk
  sources : List SourceReference
deriving Repr, DecidableEq

/-- Rust `format!("Document {}", document_id)`. -/
def documentLabel (id : Nat) : String :=
  "Document " ++ toString id

/-- Rust `RagEngine::query` (`rag.rs` lines 168–207): embed the query,
search the store, filter by `score >= similarity_threshold`, and map the
surviving results in order into context chunks and source references. -/
def RagEngine.query (eng : RagEngine) (emb : EmbedOracle) (search : SearchOracle)
    (q : List Char) : Except RagError QueryResult :=
  match emb.embed q with
  | .error e => .error e
  | .ok query_embedding =>
    match search query_embedding eng.config.search_limit with
    | .error e => .error e
    | .ok results =>
      let filtered := results.filter
        (fun r => decide (eng.config.similarity_threshold ≤ r.score))
      let context_chunks := filtered.map (fun r =>
        ({ content := r.content, score := r.score, source_type := SourceType.Manual,
           source_title := documentLabel r.document_id } : ContextChunk))
      let sources := filtered.map (fun r =>
        ({ title := documentLabel r.document_id, url := none,
           source_type := SourceType.Manual } : SourceReference))
      .ok { query := q, context_chunks := context_chunks, sources := sources }

/-- Rust `RagEngine::ingest_document` (`rag.rs` lines 99–134): chunk the
document, embed all chunk contents as one batch, and only then upsert one
point per chunk; an embedding failure is returned before any upsert, the
index state `st` unchanged.  `none` models a chunker panic. -/
def RagEngine.ingest_document (eng : RagEngine) (emb : EmbedOracle) (doc : Document)
    (g : Gen) (st : List Point) : Option (Except RagError Unit × Gen × List Point) :=
  match doc.chunk eng.config.chunk_size eng.config.chunk_overlap g with
  | none => none
  | some (doc2, g2) =>
    let texts := doc2.chunks.map (fun c => c.content)
    match emb.embed_batch texts with
    | .error e => some (.error e, g2, st)
    | .ok embeddings =>
      let points := (doc2.chunks.zip embeddings).map (fun ce =>
        ({ id := ce.1.id, document_id := ce.1.document_id,
           chunk_index := ce.1.chunk_index, content := ce.1.content,
           embedding := ce.2 } : Point))
      some (.ok (), g2, upsert_batch points st)

/-- Rust `PdfProcessor::process` after text extraction (`pdf.rs` lines
20–40): build the document from the extracted text and metadata via
`Document::new`, then set metadata and the `file://` source url. -/
def PdfProcessor.process_doc (title : String) (text : List Char)
    (metadata : DocumentMetadata) (pathStr : String) (g : Gen) : Document × Gen :=
  let (doc, g') := Document.new title text SourceType.Pdf g
  ({ doc with metadata := metadata, source_url := some ("file://" ++ pathStr) }, g')

/-- Rust `RagEngine::ingest_pdf` (`rag.rs` lines 137–141): process the PDF,
ingest a clone of the resulting document, and return the original
(never-chunked) document. -/
def RagEngine.ingest_pdf (eng : RagEngine) (emb : EmbedOracle) (title : String)
    (text : List Char) (metadata : DocumentMetadata) (pathStr : String)
    (g : Gen) (st : List Point) :
    Option (Except RagError Document × Gen × List Point) :=
  let dg := PdfProcessor.process_doc title text metadata pathStr g
  match RagEngine.ingest_document eng emb dg.1 dg.2 st with
  | none => none
  | some (.error e, g2, st2) => some (.error e, g2, st2)
  | some (.ok _, g2, st2) => some (.ok dg.1, g2, st2)

/-- External search result (`search/mod.rs::ExternalSearchResult`). -/
structure ExternalSearchResult where
  title : String
  summary : String
  url : String
  source : String
  authors : List String
  published : Option Nat
  arxiv_id : String
deriving Repr, DecidableEq

/-- The document construction inside the `search_and_ingest_arxiv` loop
(`rag.rs` lines 150–158). -/
def arxivDocument (r : ExternalSearchResult) (g : Gen) : Document × Gen :=
  let (doc, g1) := Document.new r.title r.summary.data SourceType.ArxivPaper g
  ((doc.with_source_url r.url).with_metadata
      { authors := r.authors, arxiv_id := some r.arxiv_id,
        publication_date := r.published, abstract_text := some r.summary },
    g1)

/-- Rust `RagEngine::search_and_ingest_arxiv` (`rag.rs` lines 144–165)
after the searcher returned `results`: for each result build a document,
ingest a clone of it, and push the original; the first ingestion error
aborts the loop (`?`). -/
def RagEngine.search_and_ingest_arxiv (eng : RagEngine) (emb : EmbedOracle) :
    List ExternalSearchResult → Gen → List Point →
    Option (Except RagError (List Document) × Gen × List Point)
  | [], g, st => some (.ok [], g, st)
  | r :: rs, g, st =>
    let dg := arxivDocument r g
    match RagEngine.ingest_document eng emb dg.1 dg.2 st with
    | none => none
    | some (.error e, g2, st2) => some (.error e, g2, st2)
    | some (.ok _, g2, st2) =>
      match RagEngine.search_and_ingest_arxiv eng emb rs g2 st2 with
      | none => none
      | some (.error e, g3, st3) => some (.error e, g3, st3)
      | some (.ok ds, g3, st3) => some (.ok (dg.1 :: ds), g3, st3)

/-! ## Concrete fixtures for witnesses and counterexamples -/

/-- An engine with `chunk_size = 10`, `overlap = 0`. -/
def sampleEngine : RagEngine :=
  { embedding_service := { model_name := "m", dimension := 3 },
    vector_store := { collection_name := "c", dimension := 3 },
    config := { chunk_size := 10, chunk_overlap := 0, search_limit := 10,
                similarity_threshold := mkRat 7 10 },
    arxiv_searcher := some (ArxivSearcher.new 50),
    google_searcher := none,
    pdf_processor := PdfProcessor.new,
    questdb_client := none }

/-- An engine with the default config (spec §8 example scenario). -/
def defaultEngine : RagEngine :=
  { embedding_service := { model_name := "m", dimension := 3 },
    vector_store := { collection_name := "c", dimension := 3 },
    config := RagConfig.default,
    arxiv_searcher := some (ArxivSearcher.new 50),
    google_searcher := none,
    pdf_processor := PdfProcessor.new,
    questdb_client := none }

/-- A healthy embedding provider: every text embeds to `[1]`. -/
def okEmb : EmbedOracle :=
  { embed := fun _ => .ok [1],
    embed_batch := fun ts => .ok (ts.map fun _ => [1]) }

/-- An embedding provider whose model fails. -/
def failEmb : EmbedOracle :=
  { embed := fun _ => .error (.modelError "boom"),
    embed_batch := fun _ => .error (.modelError "boom") }

/-- A small pre-existing document with content `"ab"`. -/
def sampleDoc : Document :=
  { id := 100, title := "t", content := ['a', 'b'], source_type := .Manual,
    source_url := none, metadata := {}, chunks := [],
    created_at := 0, updated_at := 0 }

/-- The spec §8 candidate scores `[0.9, 0.75, 0.65]`. -/
def sampleResults : List SearchResult :=
  [{ id := 1, score := mkRat 9 10, document_id := 11, chunk_index := 0, content := ['x'] },
   { id := 2, score := mkRat 3 4, document_id := 12, chunk_index := 0, content := ['y'] },
   { id := 3, score := mkRat 13 20, document_id := 13, chunk_index := 0, content := ['z'] }]

/-- A search oracle returning `sampleResults`. -/
def sampleSearch : SearchOracle := fun _ _ => .ok sampleResults

/-- The point of the first sample ingestion of `sampleDoc`. -/
def pt200 : Point :=
  { id := 200, document_id := 100, chunk_index := 0, content := ['a', 'b'],
    embedding := [1] }

/-- The point of the second sample ingestion of `sampleDoc`. -/
def pt201 : Point :=
  { id := 201, document_id := 100, chunk_index := 0, content := ['a', 'b'],
    embedding := [1] }

/-- The document built by the sample PDF ingest run. -/
def pdfDoc : Document :=
  { id := 200, title := "t", content := ['a', 'b'], source_type := .Pdf,
    source_url := some "file:///p.pdf", metadata := {}, chunks := [],
    created_at := 5, updated_at := 5 }

/-- A sample arXiv search result. -/
def sampleArxivResult : ExternalSearchResult :=
  { title := "T", summary := "ab", url := "u", source := "arxiv",
    authors := ["A"], published := some 3, arxiv_id := "x1" }

/-- The document built by the sample arXiv ingest run. -/
def arxDoc : Document :=
  { id := 200, title := "T", content := ['a', 'b'],
    source_type := .ArxivPaper, source_url := some "u",
    metadata := { authors := ["A"], abstract_text := some "ab",
                  arxiv_id := some "x1", publication_date := some 3 },
    chunks := [], created_at := 5, updated_at := 5 }

/-! ### Basic facts about the chunker -/

lemma chunkStep_pos (chunk_size overlap : Nat) : 0 < chunkStep chunk_size overlap :=
  Nat.lt_of_lt_of_le Nat.one_pos (Nat.le_max_right _ 1)

lemma windowChunk_length (chars : List Char) (start e : Nat) :
    (windowChunk chars start e).length = min (e - start) (chars.length - start) := by
  simp [windowChunk]

lemma windowChunk_subset (chars : List Char) (start e : Nat) :
    windowChunk chars start e ⊆ chars :=
  fun _ h => List.drop_subset start chars (List.take_subset _ _ h)

/-- On a list of 1-byte characters, the byte offset returned by the
`rfind` scan is bounded by the (byte = char) length of the list. -/
lemma rfindTerminalByteAux_ascii_bound (l : List Char) (h1 : ∀ c ∈ l, c.utf8Size = 1) :
    ∀ off acc p, (∀ q, acc = some q → q < off) →
      rfindTerminalByteAux l off acc = some p → p < off + l.length := by
  induction l with
  | nil =>
    intro off acc p hacc h
    simpa using (hacc p h)
  | cons c cs ih =>
    intro off acc p hacc h
    have hc : c.utf8Size = 1 := h1 c (List.mem_cons_self c cs)
    have hcs : ∀ x ∈ cs, x.utf8Size = 1 := fun x hx => h1 x (List.mem_cons_of_mem c hx)
    have h' : rfindTerminalByteAux cs (off + 1) (if isSentenceTerminal c then some off else acc)
        = some p := by
      simpa [rfindTerminalByteAux, hc] using h
    have hacc' : ∀ q, (if isSentenceTerminal c then some off else acc) = some q → q < off + 1 := by
      intro q hq
      by_cases ht : isSentenceTerminal c
      · simp [ht] at hq; omega
      · simp [ht] at hq
        exact Nat.lt_succ_of_lt (hacc q hq)
    have := ih hcs (off + 1) _ p hacc' h'
    simp only [List.length_cons]
    omega

lemma rfindTerminalByte_ascii_lt (l : List Char) (h1 : ∀ c ∈ l, c.utf8Size = 1)
    (p : Nat) (h : rfindTerminalByte l = some p) : p < l.length := by
  have := rfindTerminalByteAux_ascii_bound l h1 0 none p (by intro q hq; cases hq) h
  simpa using this

/-- On text of 1-byte characters the window adjustment never panics and never
grows the window. -/
lemma adjustChunk_ascii (chars : List Char) (start e : Nat)
    (hascii : ∀ c ∈ chars, c.utf8Size = 1) :
    ∃ ac, adjustChunk chars start e = some ac ∧
      ac.length ≤ min (e - start) (chars.length - start) := by
  have hwin : ∀ c ∈ windowChunk chars start e, c.utf8Size = 1 :=
    fun c hc => hascii c (windowChunk_subset chars start e hc)
  by_cases hel : e < chars.length
  · cases hrf : rfindTerminalByte (windowChunk chars start e) with
    | none =>
      refine ⟨windowChunk chars start e, ?_, ?_⟩
      · simp [adjustChunk, hel, hrf]
      · rw [windowChunk_length]
    | some pos =>
      have hpos : pos < (windowChunk chars start e).length :=
        rfindTerminalByte_ascii_lt _ hwin pos hrf
      rw [windowChunk_length] at hpos
      refine ⟨windowChunk chars start (start + pos + 1), ?_, ?_⟩
      · simp only [adjustChunk, hel, if_true, hrf]
        have h1 : start < start + pos + 1 := by omega
        have h2 : start + pos + 1 ≤ chars.length := by omega
        simp [h1, h2]
      · rw [windowChunk_length]
        omega
  · refine ⟨windowChunk chars start e, ?_, ?_⟩
    · simp [adjustChunk, hel]
    · rw [windowChunk_length]

/-- Main invariant of the chunking loop on 1-byte text: the loop succeeds and
produces chunks whose starts form the arithmetic progression of stride
`chunkStep`, whose ends exceed their starts by at most `chunk_size`, and whose
`chunkStep`-wide start windows cover every text position from `start` on. -/
lemma chunkLoop_ascii_spec (chars : List Char) (cs ov : Nat)
    (hascii : ∀ c ∈ chars, c.utf8Size = 1) :
    ∀ fuel start, chars.length - start < fuel →
    ∃ res, chunkLoop chars cs ov start fuel = some res ∧
      (∀ i (h : i < res.length), (res.get ⟨i, h⟩).2.1 = start + i * chunkStep cs ov) ∧
      (∀ c ∈ res, c.2.2 ≤ c.2.1 + cs ∧ c.2.1 < chars.length) ∧
      (start < chars.length → res ≠ []) ∧
      (∀ p, start ≤ p → p < chars.length →
        ∃ c ∈ res, c.2.1 ≤ p ∧ p < c.2.1 + chunkStep cs ov) := by
  intro fuel
  induction fuel with
  | zero => intro start h; omega
  | succ fuel ih =>
    intro start hfuel
    by_cases hs : start < chars.length
    · obtain ⟨ac, hac, haclen⟩ :=
        adjustChunk_ascii chars start (min (start + cs) chars.length) hascii
      have hstep := chunkStep_pos cs ov
      obtain ⟨rest, hrest, hstarts, hbounds, hne, hcov⟩ :=
        ih (start + chunkStep cs ov) (by omega)
      refine ⟨(ac, start, start + ac.length) :: rest, ?_, ?_, ?_, ?_, ?_⟩
      · simp [chunkLoop, hs, hac, hrest]
      · intro i h
        cases i with
        | zero => simp
        | succ i =>
          have hi : i < rest.length := by simpa using h
          have := hstarts i hi
          simp only [List.get_cons_succ]
          rw [this]
          ring
      · intro c hc
        rcases List.mem_cons.mp hc with hhd | htl
        · subst hhd
          constructor
          · simp only []
            omega
          · exact hs
        · exact hbounds c htl
      · intro _; simp
      · intro p hp1 hp2
        by_cases hps : p < start + chunkStep cs ov
        · exact ⟨(ac, start, start + ac.length), List.mem_cons_self _ _, hp1, hps⟩
        · obtain ⟨c, hc, h1, h2⟩ := hcov p (by omega) hp2
          exact ⟨c, List.mem_cons_of_mem _ hc, h1, h2⟩
    · refine ⟨[], ?_, ?_, ?_, ?_, ?_⟩
      · simp [chunkLoop, hs]
      · intro i h; simp at h
      · intro c hc; simp at hc
      · intro h; exact absurd h hs
      · intro p hp1 hp2; omega

/-! ## Claims about the chunker -/

/-- C1 (amended): for non-empty text of 1-byte codepoints, `chunk_size > 0`
and `overlap < chunk_size`, `chunk_text` succeeds and produces at least one
chunk; consecutive start offsets increase by exactly
`step = chunk_size - overlap`; consecutive spans overlap by at most
`overlap` codepoints; and every text position lies in the pre-shrink window
`[start, start + chunk_size)` of some emitted chunk.  (The union of the
emitted `[start, end)` spans themselves need not cover the text: sentence
shrink can leave gaps, see the counterexample.) -/
theorem c1_chunk_spans_amended (text : List Char) (chunk_size overlap : Nat)
    (hne : text ≠ []) (hov : overlap < chunk_size)
    (hascii : ∀ c ∈ text, c.utf8Size = 1) :
    ∃ res, chunk_text text chunk_size overlap = some res ∧
      res ≠ [] ∧
      (∀ i (h : i < res.length),
        (res.get ⟨i, h⟩).2.1 = i * (chunk_size - overlap)) ∧
      (∀ i (h : i + 1 < res.length),
        (res.get ⟨i, Nat.lt_of_succ_lt h⟩).2.2 ≤ (res.get ⟨i + 1, h⟩).2.1 + overlap) ∧
      (∀ p < text.length, ∃ c ∈ res, c.2.1 ≤ p ∧ p < c.2.1 + chunk_size) := by
  have hlen : text.length ≠ 0 := by
    simpa [List.length_eq_zero] using hne
  have hstep : chunkStep chunk_size overlap = chunk_size - overlap := by
    have h1 : 1 ≤ chunk_size - overlap := by omega
    simp [chunkStep, Nat.max_eq_left h1]
  obtain ⟨res, hres, hstarts, hbounds, hnonempty, hcov⟩ :=
    chunkLoop_ascii_spec text chunk_size overlap hascii (text.length + 1) 0 (by omega)
  refine ⟨res, ?_, hnonempty (by omega), ?_, ?_, ?_⟩
  · simpa [chunk_text, hlen] using hres
  · intro i h
    simpa [hstep] using hstarts i h
  · intro i h
    have h0 : i < res.length := Nat.lt_of_succ_lt h
    have he : (res.get ⟨i, h0⟩).2.2 ≤ (res.get ⟨i, h0⟩).2.1 + chunk_size :=
      (hbounds _ (List.get_mem res i h0)).1
    have hs0 : (res.get ⟨i, h0⟩).2.1 = i * (chunk_size - overlap) := by
      simpa [hstep] using hstarts i h0
    have hs1 : (res.get ⟨i + 1, h⟩).2.1 = (i + 1) * (chunk_size - overlap) := by
      simpa [hstep] using hstarts (i + 1) h
    have hmul : (i + 1) * (chunk_size - overlap)
        = i * (chunk_size - overlap) + (chunk_size - overlap) := by ring
    have hcs : chunk_size - overlap + overlap = chunk_size := Nat.sub_add_cancel hov.le
    rw [hs1, hmul]
    rw [hs0] at he
    omega
  · intro p hp
    obtain ⟨c, hc, h1, h2⟩ := hcov p (Nat.zero_le p) hp
    refine ⟨c, hc, h1, ?_⟩
    have : chunkStep chunk_size overlap ≤ chunk_size := by
      rw [hstep]; omega
    omega

/-- Witness for C1 (amended) at the text `"ab"`, `chunk_size = 2`,
`overlap = 1`. -/
theorem c1_chunk_spans_amended_witness :
    ∃ res, chunk_text ['a', 'b'] 2 1 = some res ∧
      res ≠ [] ∧
      (∀ i (h : i < res.length), (res.get ⟨i, h⟩).2.1 = i * (2 - 1)) ∧
      (∀ i (h : i + 1 < res.length),
        (res.get ⟨i, Nat.lt_of_succ_lt h⟩).2.2 ≤ (res.get ⟨i + 1, h⟩).2.1 + 1) ∧
      (∀ p < List.length ['a', 'b'], ∃ c ∈ res, c.2.1 ≤ p ∧ p < c.2.1 + 2) :=
  c1_chunk_spans_amended ['a', 'b'] 2 1 (by decide) (by decide) (by decide)

/-- Counterexample to C1 as stated: on `"a. bcdefghij"` with
`chunk_size = 10`, `overlap = 0`, the sentence shrink cuts the first window
down to `[0, 2)`, so the union of the emitted spans misses position `5`
although the text has 12 codepoints. -/
theorem c1_counterexample :
    chunk_text "a. bcdefghij".data 10 0
        = some [(['a', '.'], 0, 2), (['i', 'j'], 10, 12)] ∧
    ("a. bcdefghij".data).length = 12 ∧
    (∀ c ∈ [((['a', '.'] : List Char), 0, 2), (['i', 'j'], 10, 12)],
      ¬ (c.2.1 ≤ 5 ∧ 5 < c.2.2)) := by
  refine ⟨by decide, by decide, by decide⟩

/-- C2: the chunker is *not* panic-free on valid UTF-8.  On `"ééé.x"` with
`chunk_size = 4`, `overlap = 0`, `rfind` reports the `'.'` at **byte**
offset 6, the code computes `adjusted_end = 7` and indexes the 5-element
char vector with it — an out-of-bounds slice panic, modelled by `none`. -/
theorem c2_multibyte_panic :
    chunk_text "ééé.x".data 4 0 = none ∧
    ("ééé.x".data).length = 5 ∧
    rfindTerminalByte (windowChunk "ééé.x".data 0 4) = some 6 := by
  refine ⟨by decide, by decide, by decide⟩

/-- C5 (amended): on 1-byte text, whenever the window's right edge is
interior and the window contains a sentence terminal — last one at offset
`pos` relative to the window start — the window is shrunk to end right after
that character, **including when `pos = 0`** (the guard
`adjusted_end > start` in the source is always true); a window with no
terminal is emitted unshrunk, and a window reaching the end of the text is
never shrunk. -/
theorem c5_sentence_shrink_amended (chars : List Char) (start e : Nat)
    (hascii : ∀ c ∈ chars, c.utf8Size = 1) :
    ((e < chars.length) → ∀ pos, rfindTerminalByte (windowChunk chars start e) = some pos →
        adjustChunk chars start e = some (windowChunk chars start (start + pos + 1))) ∧
    (rfindTerminalByte (windowChunk chars start e) = none →
        adjustChunk chars start e = some (windowChunk chars start e)) ∧
    (chars.length ≤ e → adjustChunk chars start e = some (windowChunk chars start e)) := by
  have hwin : ∀ c ∈ windowChunk chars start e, c.utf8Size = 1 :=
    fun c hc => hascii c (windowChunk_subset chars start e hc)
  refine ⟨?_, ?_, ?_⟩
  · intro hel pos hrf
    have hpos : pos < (windowChunk chars start e).length :=
      rfindTerminalByte_ascii_lt _ hwin pos hrf
    rw [windowChunk_length] at hpos
    simp only [adjustChunk, hel, if_true, hrf]
    have h1 : start < start + pos + 1 := by omega
    have h2 : start + pos + 1 ≤ chars.length := by omega
    simp [h1, h2]
  · intro hrf
    by_cases hel : e < chars.length
    · simp [adjustChunk, hel, hrf]
    · simp [adjustChunk, hel]
  · intro hel
    have : ¬ e < chars.length := by omega
    simp [adjustChunk, this]

/-- Witness for C5 (amended) on the window `[0, 3)` of `"a.bc"`: the last
terminal sits at relative offset 1 and the window is shrunk to `"a."`. -/
theorem c5_sentence_shrink_amended_witness :
    adjustChunk ['a', '.', 'b', 'c'] 0 3 = some ['a', '.'] ∧
    rfindTerminalByte (windowChunk ['a', '.', 'b', 'c'] 0 3) = some 1 := by
  constructor
  · have h := (c5_sentence_shrink_amended ['a', '.', 'b', 'c'] 0 3 (by decide)).1
      (by decide) 1 (by decide)
    rw [h]; decide
  · decide

/-- Counterexample to C5 as stated: on `".abcdefgh"` with `chunk_size = 5`,
`overlap = 0`, the first window `".abcd"` has its last sentence terminal at
relative offset `pos = 0`, yet the code still shrinks it (to `"."`,
span `[0, 1)`), because the guard `adjusted_end > start` is vacuous. -/
theorem c5_counterexample :
    rfindTerminalByte (windowChunk ".abcdefgh".data 0 5) = some 0 ∧
    chunk_text ".abcdefgh".data 5 0
        = some [(['.'], 0, 1), (['e', 'f', 'g', 'h'], 5, 9)] ∧
    (['.'] : List Char) ≠ windowChunk ".abcdefgh".data 0 5 := by
  refine ⟨by decide, by decide, by decide⟩

/-- The fuel of `chunkLoop` is an artifact of the embedding: any two
sufficient fuel values give the same result, so `chunk_text`'s choice
`text.length + 1` is canonical. -/
lemma chunkLoop_fuel_irrelevant (chars : List Char) (cs ov : Nat) :
    ∀ f1 f2 start, chars.length - start < f1 → chars.length - start < f2 →
      chunkLoop chars cs ov start f1 = chunkLoop chars cs ov start f2 := by
  intro f1
  induction f1 with
  | zero => intro f2 start h1 h2; omega
  | succ k ih =>
    intro f2 start h1 h2
    cases f2 with
    | zero => omega
    | succ m =>
      by_cases hs : start < chars.length
      · have hstep := chunkStep_pos cs ov
        have hrec := ih m (start + chunkStep cs ov) (by omega) (by omega)
        simp only [chunkLoop, hs, if_true]
        rw [hrec]
      · simp [chunkLoop, hs]

/-! ### Helper lemmas about ingestion state -/

lemma Gen.nextId_mk (a b : Nat) : (Gen.mk a b).nextId = a := rfl

lemma Gen.time_mk (a b : Nat) : (Gen.mk a b).time = b := rfl

lemma assignChunkIds_spec (docId : Nat) :
    ∀ (raw : List (List Char × Nat × Nat)) (idx : Nat) (g : Gen),
      (assignChunkIds docId raw idx g).2.nextId = g.nextId + raw.length ∧
      (assignChunkIds docId raw idx g).2.time = g.time ∧
      ∀ c ∈ (assignChunkIds docId raw idx g).1,
        g.nextId ≤ c.id ∧ c.id < g.nextId + raw.length := by
  intro raw
  induction raw with
  | nil =>
    intro idx g
    refine ⟨rfl, rfl, ?_⟩
    intro c hc
    simp [assignChunkIds] at hc
  | cons hd tl ih =>
    intro idx g
    obtain ⟨c1, s, e⟩ := hd
    obtain ⟨h1, h2, h3⟩ := ih (idx + 1) { nextId := g.nextId + 1, time := g.time }
    simp only [Gen.nextId_mk, Gen.time_mk] at h1 h2 h3
    refine ⟨?_, ?_, ?_⟩
    · simp only [assignChunkIds, Gen.fresh, List.length_cons]
      rw [h1]
      omega
    · simpa only [assignChunkIds, Gen.fresh] using h2
    · intro c hc
      simp only [assignChunkIds, Gen.fresh, List.mem_cons] at hc
      rcases hc with hhd | htl
      · subst hhd
        simp only [List.length_cons]
        omega
      · have h4 := h3 c htl
        simp only [List.length_cons]
        omega

lemma chunk_ids_bounds (doc doc2 : Document) (cs ov : Nat) (g g2 : Gen)
    (h : doc.chunk cs ov g = some (doc2, g2)) :
    g.nextId ≤ g2.nextId ∧ g2.time = g.time ∧
    ∀ c ∈ doc2.chunks, g.nextId ≤ c.id ∧ c.id < g2.nextId := by
  unfold Document.chunk at h
  cases hct : chunk_text doc.content cs ov with
  | none => rw [hct] at h; cases h
  | some raw =>
    rw [hct] at h
    simp only [Option.some.injEq, Prod.mk.injEq] at h
    obtain ⟨hdoc2, hg2⟩ := h
    obtain ⟨h1, h2, h3⟩ := assignChunkIds_spec doc.id raw 0 g
    subst hg2
    refine ⟨by omega, h2, ?_⟩
    intro c hc
    have hc' : c ∈ (assignChunkIds doc.id raw 0 g).1 := by
      rw [← hdoc2] at hc
      simpa using hc
    have := h3 c hc'
    omega

lemma mem_upsert_batch (points st : List Point) (p : Point)
    (h : p ∈ upsert_batch points st) : p ∈ st ∨ p ∈ points := by
  unfold upsert_batch at h
  rcases List.mem_append.mp h with h1 | h2
  · exact Or.inl (List.mem_of_mem_filter h1)
  · exact Or.inr h2

lemma upsert_batch_fresh (points st : List Point)
    (h : ∀ q ∈ points, ∀ p ∈ st, q.id ≠ p.id) :
    upsert_batch points st = st ++ points := by
  unfold upsert_batch
  congr 1
  rw [List.filter_eq_self]
  intro p hp
  rw [List.all_eq_true]
  intro q hq
  exact bne_iff_ne.mpr (h q hq p hp)

lemma ingest_document_ok_spec (eng : RagEngine) (emb : EmbedOracle) (doc : Document)
    (g g2 : Gen) (st st2 : List Point)
    (h : RagEngine.ingest_document eng emb doc g st = some (.ok (), g2, st2)) :
    g.nextId ≤ g2.nextId ∧
    ∃ pts, st2 = upsert_batch pts st ∧
      ∀ q ∈ pts, g.nextId ≤ q.id ∧ q.id < g2.nextId := by
  unfold RagEngine.ingest_document at h
  cases hchunk : doc.chunk eng.config.chunk_size eng.config.chunk_overlap g with
  | none => rw [hchunk] at h; cases h
  | some dg =>
    obtain ⟨doc2, g2'⟩ := dg
    rw [hchunk] at h
    simp only [] at h
    cases hemb : emb.embed_batch (doc2.chunks.map fun c => c.content) with
    | error e =>
      rw [hemb] at h
      simp at h
    | ok embeddings =>
      rw [hemb] at h
      simp only [Option.some.injEq, Prod.mk.injEq] at h
      obtain ⟨-, hg, hst⟩ := h
      subst hg
      obtain ⟨hle, -, hids⟩ := chunk_ids_bounds doc doc2 _ _ g g2' hchunk
      refine ⟨hle, _, hst.symm, ?_⟩
      intro q hq
      obtain ⟨ce, hce, hq'⟩ := List.mem_map.mp hq
      have hmem : ce.1 ∈ doc2.chunks := (List.of_mem_zip hce).1
      have := hids ce.1 hmem
      rw [← hq']
      exact this

/-! ## Claims about the RAG engine -/

/-- C3 (amended): `RagEngine::new` performs no validation whatsoever: for
*every* `RagConfig` — including one with `chunk_overlap ≥ chunk_size` — it
returns `Ok` with exactly the given config; no `ConfigError` is ever
produced at construction time. -/
theorem c3_new_never_validates_amended (es : EmbeddingService) (vs : VectorStore)
    (cfg : RagConfig) :
    RagEngine.new es vs cfg
      = .ok { embedding_service := es, vector_store := vs, config := cfg,
              arxiv_searcher := some (ArxivSearcher.new 50),
              google_searcher := none,
              pdf_processor := PdfProcessor.new,
              questdb_client := none } := rfl

/-- Counterexample to C3 as stated: a config with
`chunk_overlap = 600 ≥ 512 = chunk_size` is *not* rejected —
construction succeeds. -/
theorem c3_counterexample :
    (512 : Nat) ≤ 600 ∧
    RagEngine.new { model_name := "BAAI/bge-small-en-v1.5", dimension := 384 }
        { collection_name := "documents", dimension := 384 }
        { chunk_size := 512, chunk_overlap := 600, search_limit := 10,
          similarity_threshold := mkRat 7 10 }
      = .ok { embedding_service := { model_name := "BAAI/bge-small-en-v1.5",
                                     dimension := 384 },
              vector_store := { collection_name := "documents", dimension := 384 },
              config := { chunk_size := 512, chunk_overlap := 600,
                          search_limit := 10, similarity_threshold := mkRat 7 10 },
              arxiv_searcher := some (ArxivSearcher.new 50),
              google_searcher := none,
              pdf_processor := PdfProcessor.new,
              questdb_client := none } :=
  ⟨by decide, rfl⟩

/-- C4: when the embedding and search collaborators succeed,
`RagEngine::query` returns exactly the search results whose score is
`≥ similarity_threshold` (inclusive bound), mapped in the order the index
returned them; every emitted context chunk scores at least the threshold,
and every result at or above the threshold (including exactly at it) is
kept. -/
theorem c4_query_inclusive_threshold_filter (eng : RagEngine) (emb : EmbedOracle)
    (search : SearchOracle) (q : List Char) (qe : List Rat)
    (results : List SearchResult)
    (he : emb.embed q = .ok qe)
    (hs : search qe eng.config.search_limit = .ok results) :
    ∃ qr, RagEngine.query eng emb search q = .ok qr ∧
      qr.context_chunks = (results.filter
          (fun r => decide (eng.config.similarity_threshold ≤ r.score))).map
          (fun r => { content := r.content, score := r.score,
                      source_type := SourceType.Manual,
                      source_title := documentLabel r.document_id }) ∧
      (∀ c ∈ qr.context_chunks, eng.config.similarity_threshold ≤ c.score) ∧
      (∀ r ∈ results, eng.config.similarity_threshold ≤ r.score →
        ({ content := r.content, score := r.score,
           source_type := SourceType.Manual,
           source_title := documentLabel r.document_id } : ContextChunk)
          ∈ qr.context_chunks) := by
  refine ⟨{ query := q,
            context_chunks := (results.filter
              (fun r => decide (eng.config.similarity_threshold ≤ r.score))).map
              (fun r => { content := r.content, score := r.score,
                          source_type := SourceType.Manual,
                          source_title := documentLabel r.document_id }),
            sources := (results.filter
              (fun r => decide (eng.config.similarity_threshold ≤ r.score))).map
              (fun r => { title := documentLabel r.document_id, url := none,
                          source_type := SourceType.Manual }) }, ?_, rfl, ?_, ?_⟩
  · simp [RagEngine.query, he, hs]
  · intro c hc
    obtain ⟨r, hr, hc'⟩ := List.mem_map.mp hc
    have hscore : decide (eng.config.similarity_threshold ≤ r.score) = true :=
      (List.mem_filter.mp hr).2
    rw [← hc']
    exact of_decide_eq_true hscore
  · intro r hr hscore
    exact List.mem_map_of_mem _
      (List.mem_filter.mpr ⟨hr, decide_eq_true hscore⟩)

/-- Witness for C4 at the spec §8 scenario: threshold `0.7`, candidates
scored `[0.9, 0.75, 0.65]` — exactly the two chunks scored `0.9` and
`0.75` survive, in that order. -/
theorem c4_query_inclusive_threshold_filter_witness :
    (∃ qr, RagEngine.query defaultEngine okEmb sampleSearch ['q'] = .ok qr ∧
      qr.context_chunks = (sampleResults.filter
          (fun r => decide (defaultEngine.config.similarity_threshold ≤ r.score))).map
          (fun r => { content := r.content, score := r.score,
                      source_type := SourceType.Manual,
                      source_title := documentLabel r.document_id }) ∧
      (∀ c ∈ qr.context_chunks, defaultEngine.config.similarity_threshold ≤ c.score) ∧
      (∀ r ∈ sampleResults, defaultEngine.config.similarity_threshold ≤ r.score →
        ({ content := r.content, score := r.score,
           source_type := SourceType.Manual,
           source_title := documentLabel r.document_id } : ContextChunk)
          ∈ qr.context_chunks)) ∧
    (sampleResults.filter
        (fun r => decide (defaultEngine.config.similarity_threshold ≤ r.score))).map
        (fun r => r.score) = [mkRat 9 10, mkRat 3 4] :=
  ⟨c4_query_inclusive_threshold_filter defaultEngine okEmb sampleSearch
      ['q'] [1] sampleResults rfl rfl,
   by decide⟩

/-- C6: if the batched embedding step fails, `ingest_document` returns that
error and the vector index state is unchanged — no upsert is issued (the
upsert only happens after all embeddings complete). -/
theorem c6_embed_failure_leaves_index_unchanged (eng : RagEngine) (emb : EmbedOracle)
    (doc doc2 : Document) (g g2 : Gen) (st : List Point) (err : RagError)
    (hchunk : doc.chunk eng.config.chunk_size eng.config.chunk_overlap g
      = some (doc2, g2))
    (hemb : emb.embed_batch (doc2.chunks.map (fun c => c.content)) = .error err) :
    RagEngine.ingest_document eng emb doc g st = some (.error err, g2, st) := by
  simp [RagEngine.ingest_document, hchunk, hemb]

/-- Witness for C6: ingesting `sampleDoc` with a failing embedding provider
returns the model error and leaves the (empty) index empty. -/
theorem c6_embed_failure_leaves_index_unchanged_witness :
    RagEngine.ingest_document sampleEngine failEmb sampleDoc
        { nextId := 200, time := 5 } []
      = some (.error (.modelError "boom"), { nextId := 201, time := 5 }, []) :=
  c6_embed_failure_leaves_index_unchanged sampleEngine failEmb sampleDoc
    { sampleDoc with
        chunks := [{ id := 200, document_id := 100, content := ['a', 'b'],
                     chunk_index := 0, start_char := 0, end_char := 2,
                     embedding := none }],
        updated_at := 5 }
    { nextId := 200, time := 5 } { nextId := 201, time := 5 } []
    (.modelError "boom") rfl rfl

/-- C7: empty text chunks to zero chunks, and ingesting a document with
empty content is a successful no-op: given a healthy embedding provider it
returns `Ok` and upserts nothing — the index state is returned unchanged. -/
theorem c7_empty_text_yields_noop_ingest (eng : RagEngine) (emb : EmbedOracle)
    (doc : Document) (g : Gen) (st : List Point) (es : List (List Rat))
    (hdoc : doc.content = [])
    (hemb : emb.embed_batch [] = .ok es) :
    (∀ chunk_size overlap, chunk_text [] chunk_size overlap = some []) ∧
    RagEngine.ingest_document eng emb doc g st = some (.ok (), g, st) := by
  constructor
  · intro cs ov
    simp [chunk_text]
  · have hchunk : doc.chunk eng.config.chunk_size eng.config.chunk_overlap g
        = some ({ doc with chunks := [], updated_at := g.time }, g) := by
      simp [Document.chunk, hdoc, chunk_text, assignChunkIds]
    simp [RagEngine.ingest_document, hchunk, hemb, upsert_batch]

/-- Witness for C7: ingesting an empty-content document into an index
holding `pt200` succeeds and leaves the index exactly as it was. -/
theorem c7_empty_text_yields_noop_ingest_witness :
    (∀ chunk_size overlap, chunk_text [] chunk_size overlap = some []) ∧
    RagEngine.ingest_document sampleEngine okEmb
        { id := 7, title := "e", content := [], source_type := .Manual,
          source_url := none, metadata := {}, chunks := [],
          created_at := 0, updated_at := 0 }
        { nextId := 300, time := 9 } [pt200]
      = some (.ok (), { nextId := 300, time := 9 }, [pt200]) :=
  c7_empty_text_yields_noop_ingest sampleEngine okEmb
    { id := 7, title := "e", content := [], source_type := .Manual,
      source_url := none, metadata := {}, chunks := [],
      created_at := 0, updated_at := 0 }
    { nextId := 300, time := 9 } [pt200] [] rfl rfl

lemma process_doc_eq (title : String) (text : List Char) (md : DocumentMetadata)
    (pathStr : String) (g : Gen) :
    PdfProcessor.process_doc title text md pathStr g
      = ({ id := g.nextId, title := title, content := text,
           source_type := SourceType.Pdf,
           source_url := some ("file://" ++ pathStr), metadata := md,
           chunks := [], created_at := g.time, updated_at := g.time },
         { nextId := g.nextId + 1, time := g.time }) := rfl

lemma arxivDocument_eq (r : ExternalSearchResult) (g : Gen) :
    arxivDocument r g
      = ({ id := g.nextId, title := r.title, content := r.summary.data,
           source_type := SourceType.ArxivPaper, source_url := some r.url,
           metadata := { authors := r.authors, arxiv_id := some r.arxiv_id,
                         publication_date := r.published,
                         abstract_text := some r.summary },
           chunks := [], created_at := g.time, updated_at := g.time },
         { nextId := g.nextId + 1, time := g.time }) := rfl

/-- C9: chunk ids are drawn fresh from the id supply on every chunking, so
re-ingesting the same document stores the second run's points under new
ids — given that the supply is ahead of every id already in the index
(which is what `Uuid::now_v7` freshness provides), the second ingestion
appends new points and overwrites none of the first run's points. -/
theorem c9_reingest_adds_new_points (eng : RagEngine) (emb : EmbedOracle)
    (doc : Document) (g0 g1 g2 : Gen) (st0 st1 st2 : List Point)
    (hfresh : ∀ p ∈ st0, p.id < g0.nextId)
    (h1 : RagEngine.ingest_document eng emb doc g0 st0 = some (.ok (), g1, st1))
    (h2 : RagEngine.ingest_document eng emb doc g1 st1 = some (.ok (), g2, st2)) :
    ∃ nw, st2 = st1 ++ nw ∧ ∀ q ∈ nw, ∀ p ∈ st1, q.id ≠ p.id := by
  obtain ⟨hle1, pts1, hst1, hids1⟩ := ingest_document_ok_spec eng emb doc g0 g1 st0 st1 h1
  obtain ⟨hle2, pts2, hst2, hids2⟩ := ingest_document_ok_spec eng emb doc g1 g2 st1 st2 h2
  have hinv1 : ∀ p ∈ st1, p.id < g1.nextId := by
    intro p hp
    rw [hst1] at hp
    rcases mem_upsert_batch pts1 st0 p hp with hmem | hmem
    · exact lt_of_lt_of_le (hfresh p hmem) hle1
    · exact (hids1 p hmem).2
  have hdisj : ∀ q ∈ pts2, ∀ p ∈ st1, q.id ≠ p.id := by
    intro q hq p hp
    have ha := (hids2 q hq).1
    have hb := hinv1 p hp
    omega
  exact ⟨pts2, by rw [hst2, upsert_batch_fresh pts2 st1 hdisj], hdisj⟩

/-- Witness for C9: ingesting `sampleDoc` twice from supply 200 stores the
first run under id 200 and the second under the fresh id 201, appending
rather than overwriting. -/
theorem c9_reingest_adds_new_points_witness :
    ∃ nw, [pt200, pt201] = [pt200] ++ nw ∧
      ∀ q ∈ nw, ∀ p ∈ [pt200], q.id ≠ p.id :=
  c9_reingest_adds_new_points sampleEngine okEmb sampleDoc
    { nextId := 200, time := 5 } { nextId := 201, time := 5 }
    { nextId := 202, time := 5 } [] [pt200] [pt200, pt201]
    (fun p hp => absurd hp (List.not_mem_nil p)) rfl rfl

/-- C10: `ingest_document` consumes its own copy of the document, so the
`Document` values returned by `ingest_pdf` and `search_and_ingest_arxiv`
are the pre-ingestion constructions: their chunk lists are empty and all
other fields (id, title, content, url, metadata, timestamps) are exactly
as built, even though the ingested copies were chunked. -/
theorem c10_returned_documents_are_preingestion_clones :
    (∀ (eng : RagEngine) (emb : EmbedOracle) (title : String) (text : List Char)
        (md : DocumentMetadata) (pathStr : String) (g g2 : Gen)
        (st st2 : List Point) (d : Document),
      RagEngine.ingest_pdf eng emb title text md pathStr g st
          = some (.ok d, g2, st2) →
      d = (PdfProcessor.process_doc title text md pathStr g).1 ∧
      d.chunks = [] ∧ d.title = title ∧ d.content = text ∧ d.metadata = md ∧
      d.source_url = some ("file://" ++ pathStr) ∧
      d.created_at = g.time ∧ d.updated_at = g.time) ∧
    (∀ (eng : RagEngine) (emb : EmbedOracle) (results : List ExternalSearchResult)
        (g g2 : Gen) (st st2 : List Point) (ds : List Document),
      RagEngine.search_and_ingest_arxiv eng emb results g st
          = some (.ok ds, g2, st2) →
      List.Forall₂ (fun (r : ExternalSearchResult) (d : Document) =>
        d.chunks = [] ∧ d.title = r.title ∧ d.content = r.summary.data ∧
        d.source_type = SourceType.ArxivPaper ∧ d.source_url = some r.url ∧
        d.metadata.arxiv_id = some r.arxiv_id ∧
        d.metadata.abstract_text = some r.summary ∧
        d.metadata.authors = r.authors ∧
        d.metadata.publication_date = r.published) results ds) := by
  constructor
  · intro eng emb title text md pathStr g g2 st st2 d h
    simp only [RagEngine.ingest_pdf] at h
    cases hi : RagEngine.ingest_document eng emb
        (PdfProcessor.process_doc title text md pathStr g).1
        (PdfProcessor.process_doc title text md pathStr g).2 st with
    | none => rw [hi] at h; cases h
    | some x =>
      obtain ⟨res, gi, sti⟩ := x
      rw [hi] at h
      cases res with
      | error e => simp at h
      | ok u =>
        simp only [Option.some.injEq, Prod.mk.injEq, Except.ok.injEq] at h
        obtain ⟨hd, -, -⟩ := h
        subst hd
        rw [process_doc_eq]
        exact ⟨rfl, rfl, rfl, rfl, rfl, rfl, rfl, rfl⟩
  · intro eng emb results
    induction results with
    | nil =>
      intro g g2 st st2 ds h
      simp only [RagEngine.search_and_ingest_arxiv, Option.some.injEq,
        Prod.mk.injEq, Except.ok.injEq] at h
      obtain ⟨hds, -, -⟩ := h
      rw [← hds]
      exact List.Forall₂.nil
    | cons r rs ih =>
      intro g g2 st st2 ds h
      simp only [RagEngine.search_and_ingest_arxiv] at h
      cases hi : RagEngine.ingest_document eng emb
          (arxivDocument r g).1 (arxivDocument r g).2 st with
      | none => rw [hi] at h; cases h
      | some x =>
        obtain ⟨res, gi, sti⟩ := x
        rw [hi] at h
        cases res with
        | error e => simp at h
        | ok u =>
          dsimp only at h
          cases hr : RagEngine.search_and_ingest_arxiv eng emb rs gi sti with
          | none =>
            rw [hr] at h
            simp at h
          | some y =>
            obtain ⟨res2, g3, st3⟩ := y
            rw [hr] at h
            cases res2 with
            | error e => simp at h
            | ok ds' =>
              simp only [Option.some.injEq, Prod.mk.injEq, Except.ok.injEq] at h
              obtain ⟨hds, -, -⟩ := h
              rw [← hds]
              refine List.Forall₂.cons ?_ (ih gi g3 sti st3 ds' hr)
              rw [arxivDocument_eq]
              exact ⟨rfl, rfl, rfl, rfl, rfl, rfl, rfl, rfl, rfl⟩

/-- Witness for C10: a concrete PDF ingest returns `pdfDoc` (chunk list
empty, fields as constructed) while the index received the chunked copy's
point, and a concrete one-result arXiv ingest returns `arxDoc` likewise. -/
theorem c10_returned_documents_are_preingestion_clones_witness :
    (pdfDoc = (PdfProcessor.process_doc "t" ['a', 'b'] {} "/p.pdf"
        { nextId := 200, time := 5 }).1 ∧
      pdfDoc.chunks = [] ∧ pdfDoc.title = "t" ∧ pdfDoc.content = ['a', 'b'] ∧
      pdfDoc.metadata = {} ∧ pdfDoc.source_url = some ("file://" ++ "/p.pdf") ∧
      pdfDoc.created_at = 5 ∧ pdfDoc.updated_at = 5) ∧
    List.Forall₂ (fun (r : ExternalSearchResult) (d : Document) =>
        d.chunks = [] ∧ d.title = r.title ∧ d.content = r.summary.data ∧
        d.source_type = SourceType.ArxivPaper ∧ d.source_url = some r.url ∧
        d.metadata.arxiv_id = some r.arxiv_id ∧
        d.metadata.abstract_text = some r.summary ∧
        d.metadata.authors = r.authors ∧
        d.metadata.publication_date = r.published)
      [sampleArxivResult] [arxDoc] :=
  ⟨c10_returned_documents_are_preingestion_clones.1 sampleEngine okEmb
      "t" ['a', 'b'] {} "/p.pdf" { nextId := 200, time := 5 }
      { nextId := 202, time := 5 } []
      [{ id := 201, document_id := 200, chunk_index := 0,
         content := ['a', 'b'], embedding := [1] }] pdfDoc rfl,
   c10_returned_documents_are_preingestion_clones.2 sampleEngine okEmb
      [sampleArxivResult] { nextId := 200, time := 5 }
      { nextId := 202, time := 5 } []
      [{ id := 201, document_id := 200, chunk_index := 0,
         content := ['a', 'b'], embedding := [1] }] [arxDoc] rfl⟩

end OpenNotebook
